import Mathlib

/-!
Verification development for the spice circuit analyzer.

The Python sources are shallowly embedded: pure functions become Lean
functions, exception-raising code returns `Except PyErr`, and Python
floats are modelled by `PF` (exact rationals extended with the IEEE
non-finite values nan / +inf / -inf, with signed zeros collapsed; all
concrete computations verified below stay inside values on which this
model coincides with binary64 arithmetic).
-/

set_option maxRecDepth 4000

attribute [local semireducible] Rat.add Rat.mul Rat.sub Rat.inv

/-- Kinds of Python exceptions raised by the embedded code.
`unmodelledSyntax` is not a Python exception: it marks inputs to the
expression parser that fall outside the numeric fragment embedded here
(see `expr_parse`); no theorem below exercises it. -/
inductive PyErr where
  | notImplementedError
  | zeroDivisionError
  | attributeError
  | valueError
  | typeError
  | indexError
  | assertionError
  | unmodelledSyntax
  deriving DecidableEq, Repr

/-- Python/numpy float values: exact rationals plus the non-finite
values.  Signed zero is collapsed into `num 0` (the two compare equal in
IEEE; no execution verified below divides by a zero produced with a
sign). -/
inductive PF where
  | num (q : ℚ)
  | nan
  | pinf
  | ninf
  deriving DecidableEq, Repr

namespace PF

/-- IEEE addition on the model. -/
def add : PF → PF → PF
  | nan, _ => nan
  | _, nan => nan
  | num a, num b => num (a + b)
  | num _, pinf => pinf
  | num _, ninf => ninf
  | pinf, num _ => pinf
  | ninf, num _ => ninf
  | pinf, pinf => pinf
  | ninf, ninf => ninf
  | pinf, ninf => nan
  | ninf, pinf => nan

/-- IEEE negation. -/
def neg : PF → PF
  | num a => num (-a)
  | nan => nan
  | pinf => ninf
  | ninf => pinf

/-- IEEE subtraction, `a - b = a + (-b)`. -/
def sub (a b : PF) : PF := add a (neg b)

/-- IEEE multiplication; `0 * inf = nan`. -/
def mul : PF → PF → PF
  | nan, _ => nan
  | _, nan => nan
  | num a, num b => num (a * b)
  | num a, pinf => if a = 0 then nan else if 0 < a then pinf else ninf
  | num a, ninf => if a = 0 then nan else if 0 < a then ninf else pinf
  | pinf, num b => if b = 0 then nan else if 0 < b then pinf else ninf
  | ninf, num b => if b = 0 then nan else if 0 < b then ninf else pinf
  | pinf, pinf => pinf
  | ninf, ninf => pinf
  | pinf, ninf => ninf
  | ninf, pinf => ninf

/-- numpy float division (no exception: `0/0 = nan`, `x/0 = ±inf`).
Python scalar `/` raises ZeroDivisionError instead; call sites that use
Python semantics test for a zero divisor themselves. -/
def div : PF → PF → PF
  | nan, _ => nan
  | _, nan => nan
  | num a, num b =>
      if b = 0 then (if a = 0 then nan else if 0 < a then pinf else ninf)
      else num (a / b)
  | pinf, num b => if 0 ≤ b then pinf else ninf
  | ninf, num b => if 0 ≤ b then ninf else pinf
  | num _, pinf => num 0
  | num _, ninf => num 0
  | pinf, pinf => nan
  | pinf, ninf => nan
  | ninf, pinf => nan
  | ninf, ninf => nan

/-- np.isnan. -/
def isnan : PF → Bool
  | nan => true
  | _ => false

end PF

/-- Expression AST (expression.py).  One constructor per node class:
`Constant`, `OpAdd`, `OpMul`, `OpUSub`, `OpInvert`, `Function`,
`Variable`, `VoltageProbe`, `CurrentProbe`, `NamedValue`.
(`Probe` itself is never instantiated.) -/
inductive ExprNode where
  | constant (value : PF)
  | opAdd (a b : ExprNode)
  | opMul (a b : ExprNode)
  | opUSub (a : ExprNode)
  | opInvert (a : ExprNode)
  | function (name : String) (args : List ExprNode)
  | var (name : String)
  | voltageProbe (name : String)
  | currentProbe (name : String)
  | namedValue (var_name : String) (node : ExprNode)

mutual

/-- Structural equality on expression trees, mirroring the frozen
dataclass `__eq__` of expression.py nodes. -/
def ExprNode.beq : ExprNode → ExprNode → Bool
  | .constant a, .constant b => a == b
  | .opAdd a b, .opAdd c d => ExprNode.beq a c && ExprNode.beq b d
  | .opMul a b, .opMul c d => ExprNode.beq a c && ExprNode.beq b d
  | .opUSub a, .opUSub b => ExprNode.beq a b
  | .opInvert a, .opInvert b => ExprNode.beq a b
  | .function n1 l1, .function n2 l2 => n1 == n2 && ExprNode.beqList l1 l2
  | .var a, .var b => a == b
  | .voltageProbe a, .voltageProbe b => a == b
  | .currentProbe a, .currentProbe b => a == b
  | .namedValue n1 e1, .namedValue n2 e2 => n1 == n2 && ExprNode.beq e1 e2
  | _, _ => false

/-- Elementwise `ExprNode.beq` on argument lists. -/
def ExprNode.beqList : List ExprNode → List ExprNode → Bool
  | [], [] => true
  | x :: xs, y :: ys => ExprNode.beq x y && ExprNode.beqList xs ys
  | _, _ => false

end

instance : BEq ExprNode := ⟨ExprNode.beq⟩

/-- `ex.POS_ONE`. -/
def POS_ONE : ExprNode := .constant (.num 1)

/-- `ex.ZERO`. -/
def EX_ZERO : ExprNode := .constant (.num 0)

/-- `ex.NEG_ONE`. -/
def NEG_ONE : ExprNode := .constant (.num (-1))

namespace ExprNode

/-- `ExprNode.evaluate` (expression.py).  `Constant` returns its value;
the binary/unary operators evaluate children left first; `OpInvert`
computes `1 / a.evaluate()`, which in Python raises ZeroDivisionError on
a zero operand (and yields nan on a nan operand); `NamedValue` delegates
to its child; every other node inherits the base-class body, which
raises NotImplementedError. -/
def evaluate : ExprNode → Except PyErr PF
  | constant v => .ok v
  | opAdd a b => do
      let x ← a.evaluate
      let y ← b.evaluate
      pure (x.add y)
  | opMul a b => do
      let x ← a.evaluate
      let y ← b.evaluate
      pure (x.mul y)
  | opUSub a => do
      let x ← a.evaluate
      pure x.neg
  | opInvert a => do
      let x ← a.evaluate
      match x with
      | .num q => if q = 0 then .error .zeroDivisionError else pure (.num (1 / q))
      | .nan => pure .nan
      | .pinf => pure (.num 0)
      | .ninf => pure (.num 0)
  | function _ _ => .error .notImplementedError
  | var _ => .error .notImplementedError
  | voltageProbe _ => .error .notImplementedError
  | currentProbe _ => .error .notImplementedError
  | namedValue _ n => n.evaluate

/-- `simplify` (expression.py).  Binary and unary operators rebuild the
node from simplified children and constant-fold it when the rebuilt node
evaluates; only NotImplementedError is caught, so a ZeroDivisionError
raised by the fold escapes (hence the `Except` result).  All other
nodes, `NamedValue` and `Function` included, inherit the base-class
`simplify`, which returns the node itself. -/
def simplify : ExprNode → Except PyErr ExprNode
  | opAdd a b => do
      let a' ← a.simplify
      let b' ← b.simplify
      let ins := opAdd a' b'
      match ins.evaluate with
      | .ok v => pure (constant v)
      | .error .notImplementedError => pure ins
      | .error e => .error e
  | opMul a b => do
      let a' ← a.simplify
      let b' ← b.simplify
      let ins := opMul a' b'
      match ins.evaluate with
      | .ok v => pure (constant v)
      | .error .notImplementedError => pure ins
      | .error e => .error e
  | opUSub a => do
      let a' ← a.simplify
      let ins := opUSub a'
      match ins.evaluate with
      | .ok v => pure (constant v)
      | .error .notImplementedError => pure ins
      | .error e => .error e
  | opInvert a => do
      let a' ← a.simplify
      let ins := opInvert a'
      match ins.evaluate with
      | .ok v => pure (constant v)
      | .error .notImplementedError => pure ins
      | .error e => .error e
  | e => .ok e

end ExprNode

/-- `Node` (node.py): a named circuit node; equality is by name. -/
structure CNode where
  name : String
  deriving DecidableEq, Repr

/-- `Node.is_ground`. -/
def CNode.is_ground (n : CNode) : Bool := n.name = "0"

/-- `CurrentFlow` (comcls.py): IN = +1, OUT = -1. -/
inductive CurrentFlow where
  | IN
  | OUT
  deriving DecidableEq, Repr

/-- The numeric `.value` of a `CurrentFlow` member. -/
def CurrentFlow.value : CurrentFlow → ℚ
  | .IN => 1
  | .OUT => -1

/-- Dynamic Python values flowing through the component-model layer:
`None`, a float (`PF`, so nan included), or an expression tree. -/
inductive PyVal where
  | pyNone
  | float (v : PF)
  | expr (e : ExprNode)

/-- Structural equality on `PyVal` (Python `==` / `is not None` tests). -/
def PyVal.beq : PyVal → PyVal → Bool
  | .pyNone, .pyNone => true
  | .float a, .float b => a == b
  | .expr a, .expr b => a.beq b
  | _, _ => false

instance : BEq PyVal := ⟨PyVal.beq⟩

/-- `ComponentModel` (model.py): a NamedTuple with exactly the fields
`name` and `params`; `params` is always the dict with the single key
`value`, stored here as `params_value`.  The class has NO field or
property named `expr`. -/
structure ComponentModel where
  name : String
  params_value : PyVal

/-- Every access to the nonexistent attribute `model.expr` (made by
main.py's producer lambdas and by `NetList.from_string`'s re-parse loop)
raises AttributeError, because `ComponentModel` defines only `name` and
`params`. -/
def ComponentModel.model_expr (_ : ComponentModel) : Except PyErr ExprNode :=
  .error .attributeError

/-- The producer closures stored on the component classes of main.py's
registry, defunctionalised (spec §9 sanctions representing the stored
closures as variants carrying their expression templates):
`modelExpr` is `lambda ins: ins.model.expr` (used for e_proc and
j_proc); `invertModelExpr` is `lambda ins: ex.OpInvert(ins.model.expr)`
(the resistor g_proc). -/
inductive Proc where
  | modelExpr
  | invertModelExpr

/-- A value stored in the `g_proc` field, whose annotation in comcls.py
is `Callable[[ComponentInstance], float] | float`: either a callable or
a bare float. -/
inductive GProcVal where
  | floatVal (v : PF)
  | proc (p : Proc)

/-- `ComponentClass` (comcls.py).  The field `pfx` embeds the source
attribute named `prefix`. -/
structure ComponentCls where
  name : String
  pfx : String
  port_high : String
  port_low : String
  current_flow : List CurrentFlow
  g_proc : Option GProcVal := none
  e_proc : Option Proc := none
  j_proc : Option Proc := none

/-- `ComponentClass.ports` = `(port_high, port_low)`. -/
def ComponentCls.ports (c : ComponentCls) : List String :=
  [c.port_high, c.port_low]

/-- `ComponentInstance` (comins.py). -/
structure ComponentInstance where
  source_line : String
  clazz : Option ComponentCls
  name : String
  port_mapping : List CNode
  model : ComponentModel

/-- Run one of the defunctionalised producer closures on an instance.
Both closures access `ins.model.expr` and therefore raise
AttributeError (see `ComponentModel.model_expr`). -/
def Proc.run : Proc → ComponentInstance → Except PyErr PyVal
  | .modelExpr, ins => (ins.model.model_expr).map .expr
  | .invertModelExpr, ins => (ins.model.model_expr).map (fun e => .expr (.opInvert e))

/-- `ComponentClass.calculate_conductance` (comcls.py 47-55): returns
`float('nan')` — not None — when `g_proc` is undefined; returns a bare
float g_proc directly; otherwise calls the closure. -/
def ComponentCls.calculate_conductance (c : ComponentCls) (ins : ComponentInstance) :
    Except PyErr PyVal :=
  match c.g_proc with
  | none => .ok (.float .nan)
  | some (.floatVal v) => .ok (.float v)
  | some (.proc p) => p.run ins

/-- `ComponentClass.calculate_constant_voltage` (comcls.py 57-63):
`float('nan')` when `e_proc` is undefined. -/
def ComponentCls.calculate_constant_voltage (c : ComponentCls) (ins : ComponentInstance) :
    Except PyErr PyVal :=
  match c.e_proc with
  | none => .ok (.float .nan)
  | some p => p.run ins

/-- `ComponentClass.calculate_constant_current` (comcls.py 65-71):
`float('nan')` when `j_proc` is undefined. -/
def ComponentCls.calculate_constant_current (c : ComponentCls) (ins : ComponentInstance) :
    Except PyErr PyVal :=
  match c.j_proc with
  | none => .ok (.float .nan)
  | some p => p.run ins

/-- `ComponentInstance.conductance` (comins.py 83-85): delegates to the
class; accessing the attribute on a `None` class raises AttributeError. -/
def ComponentInstance.conductance (ins : ComponentInstance) : Except PyErr PyVal :=
  match ins.clazz with
  | none => .error .attributeError
  | some c => c.calculate_conductance ins

/-- `ComponentInstance.constant_voltage` (comins.py 87-89). -/
def ComponentInstance.constant_voltage (ins : ComponentInstance) : Except PyErr PyVal :=
  match ins.clazz with
  | none => .error .attributeError
  | some c => c.calculate_constant_voltage ins

/-- `ComponentInstance.constant_current` (comins.py 91-93). -/
def ComponentInstance.constant_current (ins : ComponentInstance) : Except PyErr PyVal :=
  match ins.clazz with
  | none => .error .attributeError
  | some c => c.calculate_constant_current ins

/-- `Edge` (netlist.py 108-120): wraps one component instance. -/
structure Edge where
  component : ComponentInstance

/-- The variable element of a linear term.  This is the union of the two
variable hierarchies of the sources — equation.py's `ConstVariable`
(`VAR_CONST`) together with the `EdgeCurrent` / `EdgeVoltage` /
`NodePotential` circuit variables (circuit_equation.py and the duplicate
hierarchy in netlist.py 48-105); both hierarchies compare terms by
structural dataclass equality, which `Element.beq` mirrors. -/
inductive Element where
  | constVar
  | edgeCurrent (e : Edge)
  | edgeVoltage (e : Edge)
  | nodePotential (n : CNode)

/-- Structural equality of component instances (frozen dataclass
`__eq__`: all fields compared; the stored producer closures of a class
compare equal exactly when they are the same registry lambdas, which the
defunctionalised `Proc` mirrors). -/
def ComponentInstance.beq (a b : ComponentInstance) : Bool :=
  let clsBeq : ComponentCls → ComponentCls → Bool := fun x y =>
    x.name == y.name && x.pfx == y.pfx && x.port_high == y.port_high &&
    x.port_low == y.port_low && x.current_flow == y.current_flow &&
    (match x.g_proc, y.g_proc with
     | none, none => true
     | some (.floatVal u), some (.floatVal v) => u == v
     | some (.proc .modelExpr), some (.proc .modelExpr) => true
     | some (.proc .invertModelExpr), some (.proc .invertModelExpr) => true
     | _, _ => false) &&
    (match x.e_proc, y.e_proc with
     | none, none => true
     | some .modelExpr, some .modelExpr => true
     | some .invertModelExpr, some .invertModelExpr => true
     | _, _ => false) &&
    (match x.j_proc, y.j_proc with
     | none, none => true
     | some .modelExpr, some .modelExpr => true
     | some .invertModelExpr, some .invertModelExpr => true
     | _, _ => false)
  a.source_line == b.source_line &&
  (match a.clazz, b.clazz with
   | none, none => true
   | some x, some y => clsBeq x y
   | _, _ => false) &&
  a.name == b.name && a.port_mapping == b.port_mapping &&
  a.model.name == b.model.name && a.model.params_value == b.model.params_value

/-- Structural equality of elements (used for substitution dict keys). -/
def Element.beq : Element → Element → Bool
  | .constVar, .constVar => true
  | .edgeCurrent a, .edgeCurrent b => a.component.beq b.component
  | .edgeVoltage a, .edgeVoltage b => a.component.beq b.component
  | .nodePotential a, .nodePotential b => a == b
  | _, _ => false

instance : BEq Element := ⟨Element.beq⟩

/-- `LinearTerm` (equation.py 82-124 and its verbatim duplicate in
netlist.py 129-165): the pair `k · element`, with `k` of the annotated
type `ex.ExprNode`. -/
structure LinearTerm where
  k : ExprNode
  element : Element

/-- `LinearEquation` (equation.py 232-296 / netlist.py 247-301):
`left = right` over term lists (`LinearTerms` wraps a plain list, which
the embedding uses directly). -/
structure LinearEquation where
  left : List LinearTerm
  right : List LinearTerm

/-- `LinearTerm.__mul__` with an expression argument: the new
coefficient is `OpMul(other, self.k).simplify()`, which propagates a
ZeroDivisionError raised by the fold. -/
def LinearTerm.mulE (t : LinearTerm) (other : ExprNode) : Except PyErr LinearTerm :=
  (ExprNode.opMul other t.k).simplify.map (fun k => ⟨k, t.element⟩)

/-- `LinearTerms.__mul__`: multiply each term. -/
def termsMul (ts : List LinearTerm) (other : ExprNode) : Except PyErr (List LinearTerm) :=
  ts.mapM (LinearTerm.mulE · other)

/-- `LinearTerm.__neg__`: negate the coefficient (no simplify). -/
def LinearTerm.negT (t : LinearTerm) : LinearTerm :=
  ⟨.opUSub t.k, t.element⟩

/-- `LinearEquation.var_to_formula` (equation.py 248-255): requires the
left side to be a single term `k·v` (ValueError otherwise) and returns
`(v, right * OpInvert(k))`. -/
def var_to_formula (eq : LinearEquation) : Except PyErr (Element × List LinearTerm) :=
  match eq.left with
  | [lt] => (termsMul eq.right (.opInvert lt.k)).map (fun ts => (lt.element, ts))
  | _ => .error .valueError

/-- Python dict lookup over an association list built by insertion order
(later bindings overwrite earlier ones, hence the reversed search). -/
def dictGet (m : List (Element × List LinearTerm)) (x : Element) :
    Option (List LinearTerm) :=
  (m.reverse.find? (fun p => p.1 == x)).map (·.2)

/-- The per-term substitution step shared by both `__lshift__` loop
bodies: map a destination term `k·v` to `formula(v) * k` when `v` is a
key of the lookup table (the Python `if var_assignment:` test is object
truthiness, true for every `LinearTerms` object, even an empty one) and
keep the term otherwise. -/
def substTerm (m : List (Element × List LinearTerm)) (t : LinearTerm) :
    Except PyErr (List LinearTerm) :=
  match dictGet m t.element with
  | some f => termsMul f t.k
  | none => pure [t]

/-- `LinearTerms.__lshift__` (equation.py 196-219): check every source
equation has a single left-hand term (ValueError otherwise), build the
variable→formula dict via `var_to_formula` (dividing each right side by
the left coefficient), then substitute each destination term and
flatten the per-term results in order (`LinearTerms.sum`). -/
def lshiftE (dst : List LinearTerm) (src : List LinearEquation) :
    Except PyErr (List LinearTerm) :=
  if src.all (fun eq => eq.left.length == 1) then do
    let m ← src.mapM var_to_formula
    let parts ← dst.mapM (substTerm m)
    pure parts.flatten
  else .error .valueError

/-- `LinearEquation.__ilshift__` (equation.py 293-296): substitutes into
the right side first, then the left side, and returns the equation. -/
def ilshiftE (eq : LinearEquation) (src : List LinearEquation) :
    Except PyErr LinearEquation := do
  let r ← lshiftE eq.right src
  let l ← lshiftE eq.left src
  pure ⟨l, r⟩

/-- The duplicated `LinearTerms.__lshift__` of netlist.py 225-244: same
shape check, but the lookup table maps each left element directly to the
RAW right side — it does not divide by the left coefficient.  (The
truthiness test `if assignment:` is again always true for a hit.) -/
def lshiftN (dst : List LinearTerm) (src : List LinearEquation) :
    Except PyErr (List LinearTerm) :=
  if src.all (fun eq => eq.left.length == 1) then do
    let lut : List (Element × List LinearTerm) :=
      src.filterMap (fun eq => (eq.left.head?).map (fun lt => (lt.element, eq.right)))
    let parts ← dst.mapM (substTerm lut)
    pure parts.flatten
  else .error .valueError

/-- The duplicated `LinearEquation.__ilshift__` of netlist.py 294-301:
substitutes into the RIGHT side only.  (The Python method falls off the
end and returns None; the callers rely on the in-place mutation of
`self.right`, which is what the returned equation models.) -/
def ilshiftN (eq : LinearEquation) (src : List LinearEquation) :
    Except PyErr LinearEquation := do
  let r ← lshiftN eq.right src
  pure ⟨eq.left, r⟩

/-- `NodePortPair` (comins.py 12-30). -/
structure NodePortPair where
  component : ComponentInstance
  node : CNode
  port_name : String

/-- `ComponentInstance.current_flow(port_name)` (comins.py 41-43):
`self.clazz.ports.index(port_name)` raises ValueError when the port is
absent, then tuple indexing into `current_flow` raises IndexError when
out of range; accessing `.ports` on a `None` class raises
AttributeError. -/
def ComponentInstance.currentFlowOf (ins : ComponentInstance) (port_name : String) :
    Except PyErr CurrentFlow :=
  match ins.clazz with
  | none => .error .attributeError
  | some c =>
    match (c.ports).indexOf? port_name with
    | none => .error .valueError
    | some i =>
      match c.current_flow.get? i with
      | none => .error .indexError
      | some cf => .ok cf

/-- `ComponentInstance.list_node_and_port` (comins.py 119-127):
`zip(self.clazz.ports, self.port_mapping)`. -/
def ComponentInstance.list_node_and_port (ins : ComponentInstance) :
    Except PyErr (List NodePortPair) :=
  match ins.clazz with
  | none => .error .attributeError
  | some c =>
    .ok ((c.ports.zip ins.port_mapping).map (fun pn => ⟨ins, pn.2, pn.1⟩))

/-- `ComponentInstance.port_to_node[p]` (comins.py 50-51): dict built
from `zip(self.clazz.ports, self.port_mapping)` (later duplicate keys
overwrite), missing key raises KeyError (embedded as the lookup
failing). -/
def ComponentInstance.port_to_node (ins : ComponentInstance) (p : String) :
    Except PyErr CNode :=
  match ins.clazz with
  | none => .error .attributeError
  | some c =>
    match ((c.ports.zip ins.port_mapping).reverse.find? (fun q => q.1 == p)) with
    | none => .error .indexError
    | some q => .ok q.2

/-- Lexicographic code-point comparison of character lists (Python
string `<`; the built-in `String.lt` is opaque to kernel reduction). -/
def charListLt : List Char → List Char → Bool
  | [], [] => false
  | [], _ :: _ => true
  | _ :: _, [] => false
  | a :: as, b :: bs => if a < b then true else if b < a then false else charListLt as bs

/-- Python `str.__lt__`. -/
def strLt (a b : String) : Bool := charListLt a.data b.data

/-- Stable ascending insertion into a sorted list using a strict `<`
(new element placed after existing equal elements), so that folding it
over a list reproduces Python's stable `sorted`. -/
def insertAsc (lt : α → α → Bool) (acc : List α) (x : α) : List α :=
  match acc with
  | [] => [x]
  | y :: ys => if lt x y then x :: y :: ys else y :: insertAsc lt ys x

/-- Python `sorted` with a `__lt__`-based order (stable ascending). -/
def pySorted (lt : α → α → Bool) (l : List α) : List α :=
  l.foldl (insertAsc lt) []

/-- `NetList` (netlist.py 303-307). -/
structure NetList where
  title : Option String
  components : List ComponentInstance
  commands : List String

/-- `NetList.edges` (netlist.py 348-350): one edge per component,
sorted by component name (`Edge.__lt__`). -/
def NetList.edges (nl : NetList) : List Edge :=
  (pySorted (fun a b => strLt a.component.name b.component.name)
    (nl.components.map Edge.mk))

/-- `NetList.nodes` (netlist.py 352-354): the set of nodes bound by any
component, sorted by name (`Node.__lt__`); `com.nodes` sorts each
instance's own bindings first, which cannot change the deduplicated
sorted result. -/
def NetList.nodes (nl : NetList) : List CNode :=
  pySorted (fun a b => strLt a.name b.name)
    ((nl.components.flatMap (fun c => c.port_mapping)).eraseDups)

/-- `NetList.ports_with_node` (netlist.py 356-363). -/
def NetList.ports_with_node (nl : NetList) (node : CNode) :
    Except PyErr (List NodePortPair) := do
  let lists ← nl.components.mapM ComponentInstance.list_node_and_port
  pure ((lists.flatten).filter (fun nnp => nnp.node == node))

/-- Store a conductance value as a term coefficient.  Python stores the
raw value; every operation the verified paths perform on it (negation,
or use as a multiplier, which `LinearTerm.__mul__` lifts through
`Constant`) treats a raw float exactly like the wrapped `Constant`, so
floats are wrapped here; `pyNone` cannot reach this point (the call is
guarded by `is not None`) and is mapped to `POS_ONE`, the `term()`
default. -/
def coeffOfPyVal : PyVal → ExprNode
  | .pyNone => POS_ONE
  | .float v => .constant v
  | .expr e => e

/-- `NetList.ohms_law` (netlist.py 365-376): one equation
`1·I_edge = conductance·V_edge` per edge whose `conductance` is not
None.  Because `calculate_conductance` returns `float('nan')` for a
class without `g_proc`, the filter admits every edge whose conductance
computation does not raise. -/
def NetList.ohms_law (nl : NetList) : Except PyErr (List LinearEquation) := do
  let eqs ← nl.edges.mapM (fun e => do
    let g ← e.component.conductance
    if g == PyVal.pyNone then pure []
    else pure [LinearEquation.mk
      [⟨POS_ONE, .edgeCurrent e⟩]
      [⟨coeffOfPyVal g, .edgeVoltage e⟩]])
  pure eqs.flatten

/-- `NetList.kcl` (netlist.py 378-394): per node, the signed sum of
incident edge currents on the left, zero (empty) on the right. -/
def NetList.kcl (nl : NetList) : Except PyErr (List LinearEquation) := do
  nl.nodes.mapM (fun node => do
    let nnp ← nl.ports_with_node node
    let cfs ← nnp.mapM (fun p => p.component.currentFlowOf p.port_name)
    pure (LinearEquation.mk
      ((nnp.zip cfs).map (fun pc =>
        ⟨.constant (.num pc.2.value), .edgeCurrent ⟨pc.1.component⟩⟩))
      []))

/-- `NetList.kvl` (netlist.py 396-411): per edge,
`1·V_edge = 1·E_high + (-1)·E_low`. -/
def NetList.kvl (nl : NetList) : Except PyErr (List LinearEquation) := do
  nl.edges.mapM (fun e => do
    match e.component.clazz with
    | none => .error .attributeError
    | some c => do
      let nh ← e.component.port_to_node c.port_high
      let nlo ← e.component.port_to_node c.port_low
      pure (LinearEquation.mk
        [⟨POS_ONE, .edgeVoltage e⟩]
        [⟨POS_ONE, .nodePotential nh⟩, ⟨NEG_ONE, .nodePotential nlo⟩]))

/-- `NetList.node_potential_substituted_ohms_law` (netlist.py 413-421):
substitutes KVL into each Ohm equation with the netlist copy of `<<=`
(right side only). -/
def NetList.node_potential_substituted_ohms_law (nl : NetList) :
    Except PyErr (List LinearEquation) := do
  let ohm ← nl.ohms_law
  let kvl ← nl.kvl
  ohm.mapM (fun eq => ilshiftN eq kvl)

/-- `NetList.substituted_kcl` (netlist.py 423-437).  After computing the
substituted Ohm set and `kcl` — both of which return Python LISTS — the
body iterates `kcl.items()`; a list has no attribute `items`, so the
method unconditionally raises AttributeError.  (The annotated dict
result type is kept for documentation; no value is ever produced.) -/
def NetList.substituted_kcl (nl : NetList) :
    Except PyErr (List (CNode × List (Element × ExprNode))) := do
  let _ohm ← nl.node_potential_substituted_ohms_law
  let _kcl ← nl.kcl
  .error .attributeError

/-- Whitespace-run tokenizer at the character-list level (the built-in
`String.split` is opaque to kernel reduction, so the Python string
operations are embedded over `List Char`): accumulate the current token
and emit it at each whitespace run. -/
def wsTokensAux : List Char → List Char → List (List Char)
  | [], acc => if acc.isEmpty then [] else [acc.reverse]
  | c :: cs, acc =>
    if c.isWhitespace then
      if acc.isEmpty then wsTokensAux cs [] else acc.reverse :: wsTokensAux cs []
    else wsTokensAux cs (c :: acc)

/-- `re.split(r'\s+', line)` on a stripped line: the whitespace-run
tokens.  (On a string with leading/trailing whitespace Python would
also produce empty fields; every call site strips its input first.) -/
def splitWs (s : String) : List String :=
  (wsTokensAux s.data []).map String.mk

/-- Python `str.strip`: drop whitespace from both ends. -/
def stripChars (l : List Char) : List Char :=
  ((l.dropWhile Char.isWhitespace).reverse.dropWhile Char.isWhitespace).reverse

/-- Python `str.split('\n')`: split at each newline, keeping empty
fields. -/
def splitNl : List Char → List (List Char)
  | [] => [[]]
  | c :: cs =>
    if c = '\n' then [] :: splitNl cs
    else
      match splitNl cs with
      | [] => [[c]]
      | g :: gs => (c :: g) :: gs

/-- Python `str.lower` on the character list. -/
def lowerChars (l : List Char) : List Char := l.map Char.toLower

/-- The engineering-unit suffix table `_MEASUREMENT_UNITS`
(expression.py 251-264) with exact powers of ten.  (The Python table
holds binary64 literals; the factors used by the runs verified below —
k/K = 1e3 — are exactly representable, so the models agree there.) -/
def measurementUnits : List (List Char × ℚ) :=
  [(['p'], 1 / 10 ^ 12), (['n'], 1 / 10 ^ 9), (['u'], 1 / 10 ^ 6), (['m'], 1 / 10 ^ 3),
   (['k'], 10 ^ 3), (['K'], 10 ^ 3), (['M'], 10 ^ 6),
   (['M', 'e', 'g'], 10 ^ 6), (['M', 'e', 'g', 'a'], 10 ^ 6),
   (['G'], 10 ^ 9), (['G', 'i', 'g'], 10 ^ 9), (['G', 'i', 'g', 'a'], 10 ^ 9)]

/-- Value of a decimal digit string. -/
def digitsVal (l : List Char) : ℕ :=
  l.foldl (fun acc c => acc * 10 + (c.toNat - '0'.toNat)) 0

/-- Parse a token of the shape `[+-]? (\d*\.\d+ | \d+\.?\d*) suffix?`
— the numeric-literal fragment of `_normalize` + `ast.parse`
(expression.py 270-291): the regex multiplies the literal by the
matching engineering suffix and the Python `ast` then reads the
resulting float literal back into a `Constant`. -/
def parseNumToken (s : String) : Option ℚ :=
  let cs := s.data
  let (sign, cs) : ℚ × List Char :=
    match cs with
    | '+' :: rest => (1, rest)
    | '-' :: rest => (-1, rest)
    | _ => (1, cs)
  let int_part := cs.takeWhile Char.isDigit
  let cs := cs.dropWhile Char.isDigit
  let (frac_part, cs) : List Char × List Char :=
    match cs with
    | '.' :: rest => (rest.takeWhile Char.isDigit, rest.dropWhile Char.isDigit)
    | _ => ([], cs)
  if int_part.isEmpty ∧ frac_part.isEmpty then none
  else
    let mag : ℚ := (digitsVal int_part : ℚ) +
      (digitsVal frac_part : ℚ) / (10 ^ frac_part.length : ℚ)
    if cs.isEmpty then some (sign * mag)
    else
      match measurementUnits.find? (fun u => u.1 == cs) with
      | some u => some (sign * mag * u.2)
      | none => none

/-- `expression.parse` (expression.py 289-324) restricted to the
numeric-literal fragment of its grammar (a single number with optional
engineering suffix, which `_normalize` rewrites to a float literal and
the `ast` walker turns into a `Constant`).  Model strings outside the
fragment map to the marker error `unmodelledSyntax`; every theorem in
this file parses only numeric model strings. -/
def expr_parse (s : String) : Except PyErr ExprNode :=
  match parseNumToken s with
  | some q => .ok (.constant (.num q))
  | none => .error .unmodelledSyntax

/-- `ComponentClassSet._parse_model` (comcls.py 86-93): parse, then
replace the node by its float value when it evaluates
(`except NotImplementedError: pass` keeps the tree; any other exception
propagates). -/
def parse_model (s : String) : Except PyErr PyVal := do
  let e ← expr_parse s
  match e.evaluate with
  | .ok v => pure (.float v)
  | .error .notImplementedError => pure (.expr e)
  | .error err => .error err

/-- `ComponentClassSet._find_by_prefix` (comcls.py 78-84): a truthy
(non-empty) `force_prefix` replaces the name; the first class whose
prefix is a case-insensitive prefix of the name wins. -/
def findByPfx (classes : List ComponentCls) (name : String)
    (force : Option String) : Option ComponentCls :=
  let nm := match force with
    | some p => if p.data.isEmpty then name else p
    | none => name
  classes.find? (fun c => (lowerChars c.pfx.data).isPrefixOf (lowerChars nm.data))

/-- `ComponentClassSet.parse_netlist_line` (comcls.py 95-114).
`name, *ports, model_str = re.split(...)` raises ValueError on fewer
than two fields; the `assert` raises AssertionError; `force_model or
ComponentModel(...)` short-circuits, so the model string is only parsed
when no forced model is given. -/
def parse_netlist_line (classes : List ComponentCls) (line : String)
    (force_pfx : Option String) (force_model : Option ComponentModel) :
    Except PyErr ComponentInstance := do
  let parts := splitWs line
  if parts.length < 2 then .error .valueError
  else do
    let name := parts.head!
    let model_str := parts.getLast!
    let ports := (parts.drop 1).dropLast
    let clazz := findByPfx classes name force_pfx
    let portOk := match clazz with
      | none => true
      | some c => ports.length == c.ports.length
    if portOk = false then .error .assertionError
    else do
      let model ← match force_model with
        | some m => pure m
        | none => do
            let v ← parse_model model_str
            pure (ComponentModel.mk "const" v)
      pure ⟨line, clazz, name, ports.map CNode.mk, model⟩

/-- `split_behavioral_name_and_expr` (netlist.py 123-126): `None`
unless the expression is a `NamedValue`. -/
def split_behavioral_name_and_expr (e : ExprNode) : Option (String × ExprNode) :=
  match e with
  | .namedValue n b => some (n, b)
  | _ => none

/-- The behavioral re-parse step of `NetList.from_string`
(netlist.py 330-340), for a component whose class is None.  It first
evaluates `com.model.expr`, which raises AttributeError
(`ComponentModel` has no such attribute).  Were that fixed, the
unpacking of `split_behavioral_name_and_expr`'s result would raise
TypeError on a non-NamedValue model (unpacking None), and the call
`class_set.parse_netlist_line(line=..., force_prefix=...,
force_expr=...)` itself raises TypeError, because the method's signature
(comcls.py 95-99) has no parameter named `force_expr` (it is
`force_model`). -/
def reparseBehavioral (_classes : List ComponentCls) (com : ComponentInstance) :
    Except PyErr ComponentInstance := do
  let e ← com.model.model_expr
  match split_behavioral_name_and_expr e with
  | none => .error .typeError
  | some _ => .error .typeError

/-- `NetList.from_string` (netlist.py 308-346).  Line 1 (after the
blank-line check) is the title; `*` and `.` lines are skipped; other
lines are parsed into component instances; afterwards every instance
without a class goes through the behavioral re-parse. -/
def NetList.from_string (classes : List ComponentCls) (source : String) :
    Except PyErr NetList := do
  let step := fun (acc : Option String × List ComponentInstance)
                  (ln : ℕ × String) => do
    let (title, comps) := acc
    let line := String.mk (stripChars ln.2.data)
    let line_no := ln.1 + 1
    if line.data.isEmpty then pure (title, comps)
    else if line_no = 1 then pure (some line, comps)
    else if line.data.head? == some '*' then pure (title, comps)
    else if line.data.head? == some '.' then pure (title, comps)
    else do
      let ins ← parse_netlist_line classes line none none
      pure (title, comps ++ [ins])
  let (title, comps) ← ((splitNl source.data).map String.mk).enum.foldlM step
    ((none : Option String), ([] : List ComponentInstance))
  let comps ← comps.mapM (fun com =>
    match com.clazz with
    | none => reparseBehavioral classes com
    | some _ => pure com)
  pure ⟨title, comps, []⟩

/-- The default component registry built by `main` (main.py 20-47):
V-source (prefix `v`, e_proc), I-source (prefix `I`, j_proc), resistor
(prefix `r`, g_proc inverting the model expression), in that order. -/
def vsCls : ComponentCls :=
  { name := "vs", pfx := "v", port_high := "pos", port_low := "neg",
    current_flow := [.IN, .OUT], e_proc := some .modelExpr }

/-- The current-source class of the default registry. -/
def csCls : ComponentCls :=
  { name := "cs", pfx := "I", port_high := "pos", port_low := "neg",
    current_flow := [.IN, .OUT], j_proc := some .modelExpr }

/-- The resistor class of the default registry. -/
def rCls : ComponentCls :=
  { name := "r", pfx := "r", port_high := "begin", port_low := "end",
    current_flow := [.IN, .OUT], g_proc := some (.proc .invertModelExpr) }

/-- The registry tuple, in registration order. -/
def defaultClasses : List ComponentCls := [vsCls, csCls, rCls]

/-- A numpy matrix row entry: `M[i][j]`, defaulting out-of-range reads
to 0 (every read performed by the embedded solver is in range). -/
def getM (M : List (List PF)) (i j : ℕ) : PF :=
  ((M.getD i []).getD j (.num 0))

/-- Row `i` of the working matrix. -/
def rowM (M : List (List PF)) (i : ℕ) : List PF := M.getD i []

/-- The early-exit test of the forward pass (gauss.py 24):
`np.all(np.tril(M[:, :-1])[~I] == 0)` — every strictly
lower-triangular entry of the coefficient block is zero (a nan entry
compares unequal to 0, as in numpy). -/
def strictLowerZero (M : List (List PF)) : Bool :=
  (List.range M.length).all (fun r =>
    (List.range M.length).all (fun c =>
      if c < r then getM M r c == PF.num 0 else true))

/-- The row exchange of gauss.py 30, with numpy's view semantics:
`M[i, :], M[j, :] = M[j, :], M[i, :]` first copies row `j` into row `i`
and then copies the CURRENT row `i` (already overwritten) into row `j`,
so both rows end up holding the old row `j` and the old row `i` is
lost. -/
def numpyRowExchange (M : List (List PF)) (i j : ℕ) : List (List PF) :=
  let M1 := M.set i (rowM M j)
  M1.set j (rowM M1 i)

/-- The pivot search of gauss.py 29: the first row index `j > i` with
`M[j, i] != 0` (IndexError when none exists). -/
def findPivotRow (M : List (List PF)) (i : ℕ) : Option ℕ :=
  (List.range M.length).find? (fun j => i < j && ¬ (getM M j i == PF.num 0))

/-- The row elimination of gauss.py 37-38:
`M -= M[i] / M[i, i] * np.where(idx <= i, 0, M[:, i])[:, None]`.  The
right-hand side is materialised from the pre-update matrix; each row `r`
subtracts `v * c_r` elementwise, where `v = M[i] / M[i,i]` and `c_r` is
`0` for `r ≤ i` and `M[r, i]` otherwise (the literal multiplication by
0 is kept: `0 * nan = nan`). -/
def elimStep (M : List (List PF)) (i : ℕ) : List (List PF) :=
  let piv := getM M i i
  let v := (rowM M i).map (fun x => x.div piv)
  (M.enum).map (fun rrow =>
    let c : PF := if rrow.1 ≤ i then .num 0 else getM M rrow.1 i
    rrow.2.zipWith (fun a b => a.sub (b.mul c)) v)

/-- The forward pass of `solve` (gauss.py 17-38): for each `i`, break
early when the strict lower triangle is zero; exchange rows when the
pivot is zero, recording the pair; then eliminate below the pivot. -/
def forwardPass : List ℕ → List (List PF) → List (ℕ × ℕ) →
    Except PyErr (List (List PF) × List (ℕ × ℕ))
  | [], M, repl => .ok (M, repl)
  | i :: rest, M, repl =>
    if strictLowerZero M then .ok (M, repl)
    else
      if getM M i i == PF.num 0 then
        match findPivotRow M i with
        | some j => forwardPass rest (elimStep (numpyRowExchange M i j) i)
            (repl ++ [(i, j)])
        | none => .error .indexError
      else forwardPass rest (elimStep M i) repl

/-- `np.dot` of two vectors. -/
def dotPF (x y : List PF) : PF :=
  ((x.zipWith PF.mul y).foldl PF.add (.num 0))

/-- The backward pass of `solve` (gauss.py 44-66): from the last row
up, `x[i] = (M[i, -1] - dot(x, M[i, :-1])) / M[i, i]`, replacing a nan
result by 1. -/
def backwardPass (M : List (List PF)) (n : ℕ) : List PF :=
  (List.range n).reverse.foldl (fun x i =>
    let xi := ((getM M i n).sub (dotPF x ((rowM M i).take n))).div (getM M i i)
    let xi := if xi.isnan then PF.num 1 else xi
    x.set i xi) (List.replicate n (.num 0))

/-- The unswap of gauss.py 69-70: apply the recorded exchanges to `x`
in reverse order (scalar indexing copies, so this swap is a true
swap). -/
def unswap (x : List PF) (repl : List (ℕ × ℕ)) : List PF :=
  repl.reverse.foldl (fun x ij =>
    let a := x.getD ij.1 (.num 0)
    let b := x.getD ij.2 (.num 0)
    (x.set ij.1 b).set ij.2 a) x

/-- `solve` (gauss.py 4-72): concatenate `[A | c]`, run the forward
pass, back-substitute, and unswap. -/
def gaussSolve (A c : List (List PF)) : Except PyErr (List PF) := do
  let M := A.zipWith (· ++ ·) c
  let (M, repl) ← forwardPass (List.range A.length) M []
  pure (unswap (backwardPass M A.length) repl)

/-- Matrix-vector product (for checking a returned vector against the
input system). -/
def matVec (A : List (List PF)) (x : List PF) : List PF :=
  A.map (fun row => dotPF row x)

/-! ## Helper lemmas -/

/-- `dictGet` on the empty table always misses. -/
theorem dictGet_nil (x : Element) : dictGet [] x = none := rfl

/-- Flattening a list of singletons is the identity. -/
theorem flatten_map_singleton (l : List LinearTerm) :
    (l.map (fun t => [t])).flatten = l := by
  induction l with
  | nil => rfl
  | cons t rest ih => simp [List.flatten, ih]

/-- Substituting against the empty table keeps every term. -/
theorem mapM_keep_empty (l : List LinearTerm) :
    (l.mapM (substTerm []) : Except PyErr (List (List LinearTerm)))
    = .ok (l.map (fun t => [t])) := by
  induction l with
  | nil => rfl
  | cons t rest ih =>
    simp only [List.mapM_cons, substTerm, dictGet_nil, bind, Except.bind, pure,
      Except.pure, ih, List.map_cons]

/-- equation.py `LinearTerms.__lshift__` with an empty source is the
identity. -/
theorem lshiftE_empty (dst : List LinearTerm) : lshiftE dst [] = .ok dst := by
  simp only [lshiftE, List.all_nil, if_true, List.mapM_nil, bind, Except.bind, pure,
    Except.pure, mapM_keep_empty, flatten_map_singleton]

/-- equation.py `LinearEquation.__ilshift__` with an empty source is the
identity. -/
theorem ilshiftE_empty (eq : LinearEquation) : ilshiftE eq [] = .ok eq := by
  simp only [ilshiftE, lshiftE_empty, bind, Except.bind]
  rfl

/-- `mapM` into `Except` succeeds exactly when every element maps
successfully. -/
theorem mapM_ok_iff {α β : Type} (f : α → Except PyErr β) :
    ∀ (l : List α), (∃ bs, l.mapM f = .ok bs) ↔ ∀ a ∈ l, ∃ b, f a = .ok b := by
  intro l
  induction l with
  | nil =>
    constructor
    · intro _ a ha
      exact absurd ha (by simp)
    · intro _
      exact ⟨[], rfl⟩
  | cons x xs ih =>
    constructor
    · rintro ⟨bs, hbs⟩ a ha
      simp only [List.mapM_cons, bind, Except.bind, pure, Except.pure] at hbs
      cases hx : f x with
      | error e => rw [hx] at hbs; exact absurd hbs (by simp)
      | ok b =>
        rw [hx] at hbs
        cases hxs : xs.mapM f with
        | error e => rw [hxs] at hbs; exact absurd hbs (by simp)
        | ok rest =>
          rcases List.mem_cons.mp ha with h | h
          · exact ⟨b, h ▸ hx⟩
          · exact (ih.mp ⟨rest, hxs⟩) a h
    · intro h
      obtain ⟨b, hb⟩ := h x (List.mem_cons_self x xs)
      obtain ⟨rest, hrest⟩ := ih.mpr (fun a ha => h a (List.mem_cons_of_mem x ha))
      refine ⟨b :: rest, ?_⟩
      rw [List.mapM_cons, hb, hrest]
      rfl

/-- A successful `mapM` into `Except` maps the list pointwise. -/
theorem mapM_ok_spec {α β : Type} (f : α → Except PyErr β) :
    ∀ (l : List α) (bs : List β), l.mapM f = .ok bs →
      bs.length = l.length ∧
      ∀ i (hi : i < bs.length) (hj : i < l.length),
        f (l.get ⟨i, hj⟩) = .ok (bs.get ⟨i, hi⟩) := by
  intro l
  induction l with
  | nil =>
    intro bs h
    simp only [List.mapM_nil, pure, Except.pure, Except.ok.injEq] at h
    subst h
    exact ⟨rfl, fun i hi hj => absurd hi (by simp)⟩
  | cons x xs ih =>
    intro bs h
    simp only [List.mapM_cons, bind, Except.bind, pure, Except.pure] at h
    cases hx : f x with
    | error e => rw [hx] at h; exact absurd h (by simp)
    | ok b =>
      rw [hx] at h
      cases hxs : xs.mapM f with
      | error e => rw [hxs] at h; exact absurd h (by simp)
      | ok rest =>
        rw [hxs] at h
        simp only [Except.ok.injEq] at h
        subst h
        obtain ⟨hlen, hget⟩ := ih rest hxs
        refine ⟨by simp [hlen], ?_⟩
        intro i hi hj
        cases i with
        | zero => simpa using hx
        | succ n =>
          simp only [List.get_cons_succ]
          exact hget n (by simpa using hi) (by simpa using hj)

/-- Multiplying by 1 is the identity on Python float values. -/
theorem PF.one_mulP : ∀ c : PF, (PF.num 1).mul c = c := by
  intro c
  cases c with
  | num q => simp [PF.mul]
  | nan => rfl
  | pinf => simp [PF.mul]
  | ninf => simp [PF.mul]

/-- A term whose coefficient is a constant is unchanged by
multiplication with `OpInvert(POS_ONE)` (the fold gives back the same
constant). -/
theorem mulE_invert_one (t : LinearTerm) (c : PF) (hc : t.k = .constant c) :
    t.mulE (.opInvert POS_ONE) = .ok t := by
  simp only [LinearTerm.mulE, hc, POS_ONE]
  have h1 : (ExprNode.opMul (.opInvert (.constant (.num 1))) (.constant c)).simplify
      = .ok (.constant c) := by
    simp only [ExprNode.simplify, ExprNode.evaluate, bind, Except.bind, pure, Except.pure]
    norm_num
    simp [ExprNode.evaluate, PF.one_mulP]
  rw [h1]
  simp only [Except.map]
  rw [← hc]

/-- Term lists with constant coefficients are fixed by multiplication
with `OpInvert(POS_ONE)`. -/
theorem termsMul_invert_one (l : List LinearTerm)
    (h : ∀ t ∈ l, ∃ c, t.k = .constant c) :
    termsMul l (.opInvert POS_ONE) = .ok l := by
  induction l with
  | nil => rfl
  | cons t rest ih =>
    obtain ⟨c, hc⟩ := h t (List.mem_cons_self t rest)
    have := mulE_invert_one t c hc
    simp only [termsMul] at ih ⊢
    rw [List.mapM_cons, this, ih (fun a ha => h a (List.mem_cons_of_mem t ha))]
    rfl

/-- `var_to_formula` on a unit-coefficient equation with constant right
coefficients returns the raw right side. -/
theorem vtf_unit (eq : LinearEquation) (v : Element)
    (hl : eq.left = [⟨POS_ONE, v⟩])
    (hr : ∀ t ∈ eq.right, ∃ c, t.k = .constant c) :
    var_to_formula eq = .ok (v, eq.right) := by
  simp only [var_to_formula, hl, termsMul_invert_one eq.right hr, Except.map]

/-- On unit-coefficient sources with constant right coefficients, the
equation.py formula dict coincides with the netlist.py raw lookup
table. -/
theorem vtf_mapM_units : ∀ (src : List LinearEquation),
    (∀ eq ∈ src, (∃ v, eq.left = [⟨POS_ONE, v⟩]) ∧ ∀ t ∈ eq.right, ∃ c, t.k = .constant c) →
    src.mapM var_to_formula
      = .ok (src.filterMap (fun eq => (eq.left.head?).map (fun lt => (lt.element, eq.right)))) := by
  intro src
  induction src with
  | nil => intro _; rfl
  | cons eq rest ih =>
    intro h
    obtain ⟨⟨v, hl⟩, hr⟩ := h eq (List.mem_cons_self eq rest)
    rw [List.mapM_cons, vtf_unit eq v hl hr, ih (fun a ha => h a (List.mem_cons_of_mem eq ha))]
    simp [hl]
    rfl

/-- Recursive core of the simplify/evaluate preservation proof:
structural induction on the expression tree. -/
theorem simplify_preserves_aux : ∀ (e : ExprNode) (v : PF), e.evaluate = .ok v →
    ∃ e2, e.simplify = .ok e2 ∧ e2.evaluate = .ok v
  | .constant c, v, h => ⟨.constant c, rfl, h⟩
  | .opAdd a b, v, h => by
      simp only [ExprNode.evaluate, bind, Except.bind] at h
      cases ha : a.evaluate with
      | error ea => rw [ha] at h; exact absurd h (by simp)
      | ok x =>
        rw [ha] at h
        cases hb : b.evaluate with
        | error eb => rw [hb] at h; exact absurd h (by simp)
        | ok y =>
          rw [hb] at h
          simp only [pure, Except.pure, Except.ok.injEq] at h
          obtain ⟨a2, ha1, ha2⟩ := simplify_preserves_aux a x ha
          obtain ⟨b2, hb1, hb2⟩ := simplify_preserves_aux b y hb
          refine ⟨.constant v, ?_, rfl⟩
          simp only [ExprNode.simplify, ha1, hb1, bind, Except.bind]
          simp only [ExprNode.evaluate, bind, Except.bind, ha2, hb2, pure, Except.pure, h]
  | .opMul a b, v, h => by
      simp only [ExprNode.evaluate, bind, Except.bind] at h
      cases ha : a.evaluate with
      | error ea => rw [ha] at h; exact absurd h (by simp)
      | ok x =>
        rw [ha] at h
        cases hb : b.evaluate with
        | error eb => rw [hb] at h; exact absurd h (by simp)
        | ok y =>
          rw [hb] at h
          simp only [pure, Except.pure, Except.ok.injEq] at h
          obtain ⟨a2, ha1, ha2⟩ := simplify_preserves_aux a x ha
          obtain ⟨b2, hb1, hb2⟩ := simplify_preserves_aux b y hb
          refine ⟨.constant v, ?_, rfl⟩
          simp only [ExprNode.simplify, ha1, hb1, bind, Except.bind]
          simp only [ExprNode.evaluate, bind, Except.bind, ha2, hb2, pure, Except.pure, h]
  | .opUSub a, v, h => by
      simp only [ExprNode.evaluate, bind, Except.bind] at h
      cases ha : a.evaluate with
      | error ea => rw [ha] at h; exact absurd h (by simp)
      | ok x =>
        rw [ha] at h
        simp only [pure, Except.pure, Except.ok.injEq] at h
        obtain ⟨a2, ha1, ha2⟩ := simplify_preserves_aux a x ha
        refine ⟨.constant v, ?_, rfl⟩
        simp only [ExprNode.simplify, ha1, bind, Except.bind]
        simp only [ExprNode.evaluate, bind, Except.bind, ha2, pure, Except.pure, h]
  | .opInvert a, v, h => by
      simp only [ExprNode.evaluate, bind, Except.bind] at h
      cases ha : a.evaluate with
      | error ea => rw [ha] at h; exact absurd h (by simp)
      | ok x =>
        rw [ha] at h
        obtain ⟨a2, ha1, ha2⟩ := simplify_preserves_aux a x ha
        have hins : (ExprNode.opInvert a2).evaluate = .ok v := by
          simp only [ExprNode.evaluate, bind, Except.bind, ha2]
          exact h
        refine ⟨.constant v, ?_, rfl⟩
        simp only [ExprNode.simplify, ha1, bind, Except.bind, hins]
        rfl
  | .function n args, v, h => by
      exact absurd h (by simp [ExprNode.evaluate])
  | .var n, v, h => by exact absurd h (by simp [ExprNode.evaluate])
  | .voltageProbe n, v, h => by exact absurd h (by simp [ExprNode.evaluate])
  | .currentProbe n, v, h => by exact absurd h (by simp [ExprNode.evaluate])
  | .namedValue n e, v, h => ⟨.namedValue n e, rfl, h⟩

/-! ## Concrete fixtures used by individual claims -/

/-- The instance parsed from `V1 a 0 10` against the default registry
(class `vs`, which defines `e_proc` but no `g_proc`). -/
def v1Ins : ComponentInstance :=
  ⟨"V1 a 0 10", some vsCls, "V1", [⟨"a"⟩, ⟨"0"⟩], ⟨"const", .float (.num 10)⟩⟩

/-- A one-component netlist holding only the voltage source `v1Ins`. -/
def nlV1 : NetList := ⟨some "T", [v1Ins], []⟩

/-- C9 counterexample equation: left side is the single term `0·e_a`,
right side the constant 1. -/
def c9BadEq : LinearEquation :=
  ⟨[⟨EX_ZERO, .nodePotential ⟨"a"⟩⟩], [⟨POS_ONE, .constVar⟩]⟩

/-- C9 witness equation: left side `2·e_x`, right side the constant 6. -/
def c9OkEq : LinearEquation :=
  ⟨[⟨.constant (.num 2), .nodePotential ⟨"x"⟩⟩], [⟨.constant (.num 6), .constVar⟩]⟩

/-- C10 counterexample source: the single equation `2·e_x = 1`. -/
def c10Src : List LinearEquation :=
  [⟨[⟨.constant (.num 2), .nodePotential ⟨"x"⟩⟩], [⟨POS_ONE, .constVar⟩]⟩]

/-- C10 counterexample destination: the single term `1·e_x`. -/
def c10Dst : List LinearTerm := [⟨POS_ONE, .nodePotential ⟨"x"⟩⟩]

/-- C10 witness source: the single equation `1·e_y = 5`. -/
def c10WSrc : List LinearEquation :=
  [⟨[⟨POS_ONE, .nodePotential ⟨"y"⟩⟩], [⟨.constant (.num 5), .constVar⟩]⟩]

/-- C10 witness destination: the single term `7·e_y`. -/
def c10WDst : List LinearTerm := [⟨.constant (.num 7), .nodePotential ⟨"y"⟩⟩]

/-! ## Claim theorems -/

/-- C1: the claim states that `substituted_kcl` returns one
node-potential-only equation per node with right-hand side zero.  In
fact the method body iterates `kcl.items()` over the Python list
returned by `kcl()`, so for every netlist it raises AttributeError
instead of returning anything: `substituted_kcl` never produces a
value. -/
theorem spice_substituted_kcl_always_raises (nl : NetList) :
    ∃ e, nl.substituted_kcl = .error e := by
  simp only [NetList.substituted_kcl, bind, Except.bind]
  cases nl.node_potential_substituted_ohms_law with
  | error e => exact ⟨e, rfl⟩
  | ok _ =>
    cases nl.kcl with
    | error e => exact ⟨e, rfl⟩
    | ok _ => exact ⟨.attributeError, rfl⟩

/-- C2: parsing `R1 a 0 2.2k` with the default registry does yield a
resistor instance whose stored model value is 2200 (the engineering
suffix `k` is applied), but the derived conductance does not evaluate
to 1/2200: accessing it raises AttributeError, because the resistor
`g_proc` reads the nonexistent attribute `ins.model.expr`
(`ComponentModel` has only `name` and `params`). -/
theorem spice_parse_r1_conductance_attribute_error :
    parse_netlist_line defaultClasses "R1 a 0 2.2k" none none
      = .ok ⟨"R1 a 0 2.2k", some rCls, "R1", [⟨"a"⟩, ⟨"0"⟩],
             ⟨"const", .float (.num 2200)⟩⟩ ∧
    (parse_netlist_line defaultClasses "R1 a 0 2.2k" none none).map
      ComponentInstance.conductance = .ok (.error .attributeError) :=
  ⟨rfl, rfl⟩

/-- C3: a component line whose name matches no registered prefix (here
`E1 c 0 3`) is parsed with class None, and `from_string`'s behavioral
re-parse then raises AttributeError at `com.model.expr` — it never
produces an instance with a behavioral class (and even with that access
fixed, the re-parse call passes the unknown keyword `force_expr` to
`parse_netlist_line`, a TypeError). -/
theorem spice_from_string_behavioral_reparse_raises :
    (parse_netlist_line defaultClasses "E1 c 0 3" none none).map
      (fun i => i.clazz.isNone) = .ok true ∧
    NetList.from_string defaultClasses "Gain\nE1 c 0 3" = .error .attributeError :=
  ⟨rfl, rfl⟩

/-- C4: the claim states the forward pass exchanges rows `i` and `j`.
The numpy statement `M[i,:], M[j,:] = M[j,:], M[i,:]` assigns through
views, so after the step BOTH rows hold the old row `j` and the old row
`i` is lost: on `M = [[0,1,2],[1,0,3]]` the "swap" at `(0,1)` yields
`[[1,0,3],[1,0,3]]`, and the full solve of `A = [[0,1],[1,0]]`,
`c = [2,3]` returns `[1,3]`, which is not a solution (`A·[1,3] =
[3,1]`), while the true solution is `[3,2]`. -/
theorem spice_gauss_row_exchange_duplicates_row :
    numpyRowExchange [[.num 0, .num 1, .num 2], [.num 1, .num 0, .num 3]] 0 1
      = [[.num 1, .num 0, .num 3], [.num 1, .num 0, .num 3]] ∧
    gaussSolve [[.num 0, .num 1], [.num 1, .num 0]] [[.num 2], [.num 3]]
      = .ok [.num 1, .num 3] ∧
    matVec [[.num 0, .num 1], [.num 1, .num 0]] [.num 1, .num 3] = [.num 3, .num 1] ∧
    matVec [[.num 0, .num 1], [.num 1, .num 0]] [.num 3, .num 2] = [.num 2, .num 3] :=
  ⟨rfl, rfl, rfl, rfl⟩

/-- C5: the claim states that a class without `g_proc` has an absent
conductance and that `ohms_law` emits equations exactly for edges whose
conductance is present.  In fact `calculate_conductance` returns the
numeric float nan for the g-less class `vs`, nan is not None, and
`ohms_law` therefore emits an Ohm equation for the source edge too
(with coefficient nan). -/
theorem spice_absent_gproc_nan_and_ohm_overinclusion :
    vsCls.g_proc = none ∧
    v1Ins.conductance = .ok (.float .nan) ∧
    (PyVal.float .nan == PyVal.pyNone) = false ∧
    nlV1.ohms_law = .ok [⟨[⟨POS_ONE, .edgeCurrent ⟨v1Ins⟩⟩],
                          [⟨.constant .nan, .edgeVoltage ⟨v1Ins⟩⟩]⟩] :=
  ⟨rfl, rfl, rfl, rfl⟩

/-- C6: solving `A = [[2,1],[1,3]]`, `c = [[5],[10]]` with the dense
Gauss solver returns exactly `[1, 3]` under the exact-rational
embedding of the float arithmetic. -/
theorem spice_gauss_solve_sanity :
    gaussSolve [[.num 2, .num 1], [.num 1, .num 3]] [[.num 5], [.num 10]]
      = .ok [.num 1, .num 3] := rfl

/-- C7: for every expression tree whose `evaluate()` succeeds,
`simplify()` succeeds as well and the simplified tree evaluates to the
same value. -/
theorem spice_simplify_preserves_evaluate (e : ExprNode) (v : PF)
    (h : e.evaluate = .ok v) :
    ∃ e2, e.simplify = .ok e2 ∧ e2.evaluate = .ok v :=
  simplify_preserves_aux e v h

/-- C7 witness: `(2 + 3).simplify()` evaluates to 5. -/
theorem spice_simplify_preserves_evaluate_witness :
    ∃ e2, (ExprNode.opAdd (.constant (.num 2)) (.constant (.num 3))).simplify = .ok e2
      ∧ e2.evaluate = .ok (.num 5) :=
  spice_simplify_preserves_evaluate _ _ rfl

/-- C8: substituting an empty equation set is the identity: `dst << []`
returns exactly the terms of `dst` in order, and `eq <<= []` leaves the
equation unchanged (equation.py implementations). -/
theorem spice_lshift_empty_source_identity :
    (∀ dst : List LinearTerm, lshiftE dst [] = .ok dst) ∧
    (∀ eq : LinearEquation, ilshiftE eq [] = .ok eq) :=
  ⟨lshiftE_empty, ilshiftE_empty⟩

/-- C9 counterexample: the claim states `var_to_formula` succeeds
exactly when the left side is a single term.  On `0·e_a = 1` the left
side is a single term, yet the call raises ZeroDivisionError (folding
`OpInvert(0)` divides by zero). -/
theorem spice_var_to_formula_zero_coeff_cex :
    var_to_formula c9BadEq = .error .zeroDivisionError ∧ c9BadEq.left.length = 1 :=
  ⟨rfl, rfl⟩

/-- C9 (amended): `var_to_formula` raises ValueError whenever the left
side is not a single term; with left `[k·v]` it succeeds exactly when
multiplying every right coefficient by `OpInvert(k)` folds without
error, and then returns `v` together with the right side multiplied
coefficient-wise by the inverse of `k`, elements and order preserved
(the equation itself is never modified — the embedding is pure). -/
theorem spice_var_to_formula_contract (eq : LinearEquation) :
    (eq.left.length ≠ 1 → var_to_formula eq = .error .valueError) ∧
    (∀ lt, eq.left = [lt] →
      ((∃ r, var_to_formula eq = .ok r) ↔
        ∀ t ∈ eq.right, ∃ u, t.mulE (.opInvert lt.k) = .ok u) ∧
      (∀ v ts, var_to_formula eq = .ok (v, ts) → v = lt.element ∧
        ts.length = eq.right.length ∧
        ∀ i (hi : i < ts.length) (hj : i < eq.right.length),
          (eq.right.get ⟨i, hj⟩).mulE (.opInvert lt.k) = .ok (ts.get ⟨i, hi⟩))) := by
  constructor
  · intro hne
    match h : eq.left with
    | [] => simp [var_to_formula, h]
    | [a] => exact absurd (h ▸ rfl) hne
    | a :: b :: rest => simp [var_to_formula, h]
  · intro lt hlt
    constructor
    · constructor
      · rintro ⟨r, hr⟩ t ht
        simp only [var_to_formula, hlt, termsMul, Except.map] at hr
        cases hm : eq.right.mapM (LinearTerm.mulE · (.opInvert lt.k)) with
        | error e => rw [hm] at hr; exact absurd hr (by simp)
        | ok bs => exact (mapM_ok_iff _ eq.right).mp ⟨bs, hm⟩ t ht
      · intro h
        obtain ⟨bs, hbs⟩ := (mapM_ok_iff (LinearTerm.mulE · (.opInvert lt.k)) eq.right).mpr h
        refine ⟨(lt.element, bs), ?_⟩
        simp only [var_to_formula, hlt, termsMul, Except.map, hbs]
    · intro v ts hok
      simp only [var_to_formula, hlt, termsMul, Except.map] at hok
      cases hm : eq.right.mapM (LinearTerm.mulE · (.opInvert lt.k)) with
      | error e => rw [hm] at hok; exact absurd hok (by simp)
      | ok bs =>
        rw [hm] at hok
        simp only [Except.ok.injEq, Prod.mk.injEq] at hok
        obtain ⟨hv, hts⟩ := hok
        subst hv
        subst hts
        obtain ⟨hlen, hget⟩ := mapM_ok_spec _ eq.right bs hm
        exact ⟨rfl, hlen, fun i hi hj => hget i hi hj⟩

/-- C9 witness: on `2·e_x = 6` the contract's success condition holds
and `var_to_formula` succeeds. -/
theorem spice_var_to_formula_contract_witness :
    ∃ r, var_to_formula c9OkEq = .ok r :=
  ((spice_var_to_formula_contract c9OkEq).2
      ⟨.constant (.num 2), .nodePotential ⟨"x"⟩⟩ rfl).1.mpr
    (fun t ht => by
      rw [List.mem_singleton.mp ht]
      exact ⟨⟨.constant (.num 3), .constVar⟩, rfl⟩)

/-- C10 counterexample: the claim states the two substitution
implementations compute the same result on inputs accepted by both.  On
destination `1·e_x` and source `2·e_x = 1` both succeed, but
equation.py's `<<` divides by the left coefficient (result `1/2`) while
netlist.py's uses the raw right side (result `1`). -/
theorem spice_substitution_impls_disagree_cex :
    lshiftE c10Dst c10Src = .ok [⟨.constant (.num (1/2)), .constVar⟩] ∧
    lshiftN c10Dst c10Src = .ok [⟨.constant (.num 1), .constVar⟩] ∧
    lshiftE c10Dst c10Src ≠ lshiftN c10Dst c10Src := by
  have h1 : lshiftE c10Dst c10Src = .ok [⟨.constant (.num (1/2)), .constVar⟩] := rfl
  have h2 : lshiftN c10Dst c10Src = .ok [⟨.constant (.num 1), .constVar⟩] := rfl
  refine ⟨h1, h2, ?_⟩
  rw [h1, h2]
  intro h
  simp only [Except.ok.injEq, List.cons.injEq, LinearTerm.mk.injEq,
    ExprNode.constant.injEq, PF.num.injEq] at h
  norm_num at h

/-- C10 (amended): the two term-level substitution implementations
agree whenever every source equation has the unit left coefficient
`Constant 1` and constant right-hand coefficients (then dividing by the
left coefficient folds back to the raw right side); in general they
differ, and the equation-level operators differ besides (equation.py
rewrites both sides, netlist.py only the right). -/
theorem spice_substitution_impls_agree (dst : List LinearTerm)
    (src : List LinearEquation)
    (h : ∀ eq ∈ src, (∃ v, eq.left = [⟨POS_ONE, v⟩]) ∧
      ∀ t ∈ eq.right, ∃ c, t.k = .constant c) :
    lshiftE dst src = lshiftN dst src := by
  have hall : src.all (fun eq => eq.left.length == 1) = true := by
    rw [List.all_eq_true]
    intro eq heq
    obtain ⟨⟨v, hl⟩, _⟩ := h eq heq
    simp [hl]
  simp only [lshiftE, lshiftN, hall, if_true, vtf_mapM_units src h, bind, Except.bind]

/-- C10 witness: on destination `7·e_y` and source `1·e_y = 5` the two
implementations agree. -/
theorem spice_substitution_impls_agree_witness :
    lshiftE c10WDst c10WSrc = lshiftN c10WDst c10WSrc :=
  spice_substitution_impls_agree c10WDst c10WSrc (fun eq heq => by
    rw [List.mem_singleton.mp heq]
    exact ⟨⟨.nodePotential ⟨"y"⟩, rfl⟩, fun t ht => by
      rw [List.mem_singleton.mp ht]
      exact ⟨.num 5, rfl⟩⟩)
